import Mathlib

/-!
Shallow embedding of the `moove` bulk-rename tool (`src/lib.rs`).

Modelling choices, used consistently below:
* Paths are lists of components, the component view of Rust `PathBuf`
  (`std::path::Component`); path equality in Rust is component-wise, so this
  is the faithful notion of path identity.
* Text (`String`/`&str`) is a list of characters.
* The Unix configuration is modelled: `cfg!(target_family = "windows")` is
  false and `std::path::MAIN_SEPARATOR` is `'/'`.
* The filesystem, the `normpath` canonicalizer, the current directory and the
  `natord` comparator are external collaborators (spec section 6); they are
  injected as a read-only view `FsView`.  Validation and execution in the
  source query the live filesystem; the model passes the view explicitly.
* The external text editor (`edit::edit`) and the redo/abort prompt
  (`prompt_redo`) are injected as scripts: the list of texts successively
  returned by the editor and the list of booleans successively returned by
  the prompt (`true` = edit again, `false` = abort), following spec
  section 9's instruction to model them as injected interfaces.
* Execution is modelled as the trace of filesystem primitives issued
  (`FsAction`); `fs_extra::move_items`/`copy_items` move (copy) an entry into
  a target directory keeping its basename, `std::fs::rename`/`copy` take the
  full source and target paths, `std::fs::create_dir_all` creates a directory
  together with all missing ancestors.
-/

namespace Moove

/-- One component of a path, as in `std::path::Component` (Windows prefixes
are not modelled; the Unix configuration has none). -/
inductive Component where
  | rootDir
  | curDir
  | parentDir
  | normal (name : List Char)
deriving DecidableEq, Repr

/-- A path, as its list of components (the component view of `PathBuf`). -/
abbrev Path := List Component

/-- A piece of text, as its list of characters. -/
abbrev Text := List Char

/-- `Path::parent`: the path without its final component; `None` for the
empty path and for the root directory. -/
def parent (p : Path) : Option Path :=
  if p = [] ∨ p = [Component.rootDir] then none else some p.dropLast

/-- `Path::file_name`: the last component when it is a normal component,
`None` otherwise (root, empty, or a path ending in `..` or `.`). -/
def fileName (p : Path) : Option (List Char) :=
  match p.getLast? with
  | some (Component.normal n) => some n
  | _ => none

/-- Helper for `ancestors`, walking the reversed component list: dropping the
head of the reversed list is `Path::parent`.  The chain stops at the root
directory for absolute paths and at the empty path for relative ones, as
`Path::ancestors` does. -/
def ancestorsRev : Path → List Path
  | [] => [[]]
  | [c] => if c = Component.rootDir then [[c]] else [[c], []]
  | c :: rest => (c :: rest) :: ancestorsRev rest

/-- `Path::ancestors`: the path itself, its parent, its grandparent, …,
ending at the root directory (absolute path) or the empty path (relative
path). -/
def ancestors (p : Path) : List Path :=
  (ancestorsRev p.reverse).map List.reverse

/-- `PathBuf::pop`: truncate to the parent; fails (returns `none`) exactly
when `parent` is `None`. -/
def popPath (p : Path) : Option Path :=
  if p = [] ∨ p = [Component.rootDir] then none else some p.dropLast

/-- One step of `normalize` (lib.rs): a `..` pops (or is pushed when the
pop fails); every other component is pushed. -/
def normalizeStep (normalized : Path) (component : Component) : Path :=
  match component with
  | Component.parentDir =>
    match popPath normalized with
    | none => normalized ++ [component]
    | some q => q
  | _ => normalized ++ [component]

/-- `normalize` (lib.rs): lexically collapse `..` components by popping,
pushing the `..` itself when the pop fails.  Other components (including
`.` and the root) are pushed unchanged. -/
def normalize (path : Path) : Path :=
  path.foldl normalizeStep []

/-- `str::split` on a single character: splits at every occurrence, keeping
empty pieces (`"a//b"` gives `["a", "", "b"]`, `""` gives `[""]`). -/
def splitOnChar (c : Char) : List Char → List (List Char)
  | [] => [[]]
  | x :: xs =>
    if x = c then [] :: splitOnChar c xs
    else
      match splitOnChar c xs with
      | [] => [[x]]
      | y :: ys => (x :: y) :: ys

/-- `Vec::join` on a separator character (also `List::intercalate [c]`). -/
def joinChar (c : Char) : List (List Char) → List Char
  | [] => []
  | [l] => l
  | l :: ls => l ++ c :: joinChar c ls

/-- The pieces of a slash-split string as components: empty pieces and `.`
are skipped, `..` is a parent-directory component, anything else is a normal
component — as `Path::components` behaves on Unix. -/
def parseBody (parts : List (List Char)) : List Component :=
  parts.filterMap fun part =>
    if part = [] then none
    else if part = ['.'] then none
    else if part = ['.', '.'] then some Component.parentDir
    else some (Component.normal part)

/-- `PathBuf::from` on Unix, as the component view of the string: a leading
`/` is the root directory; a leading `.` piece of a relative path is kept as
a `CurDir` component (as `Path::components` keeps it); the remaining pieces
go through `parseBody`. -/
def parsePath (s : Text) : Path :=
  if s.head? = some '/' then
    Component.rootDir :: parseBody (splitOnChar '/' s)
  else if (splitOnChar '/' s).head? = some ['.'] then
    Component.curDir :: parseBody (splitOnChar '/' s).tail
  else parseBody (splitOnChar '/' s)

/-- The textual form of one component (`..` for parent, `.` for the current
directory).  The root directory renders as the empty piece so that
`renderParts` puts the leading `/` in place. -/
def renderComp : Component → List Char
  | Component.rootDir => []
  | Component.curDir => ['.']
  | Component.parentDir => ['.', '.']
  | Component.normal n => n

/-- The slash-separated pieces of a path's textual form. -/
def renderParts (p : Path) : List (List Char) :=
  match p with
  | Component.rootDir :: rest => [] :: rest.map renderComp
  | _ => p.map renderComp

/-- `Path::to_str` for the component view: the components joined with `/`
(an absolute path starts with `/`). -/
def render (p : Path) : Text :=
  joinChar '/' (renderParts p)

/-- Membership in `SEPARATORS` (lib.rs): `/` or `\`. -/
def isSep (c : Char) : Bool :=
  c = '/' || c = '\\'

/-- `str::trim_end_matches(SEPARATORS)`: drop all trailing separators. -/
def rdropSeps (s : Text) : Text :=
  s.rdropWhile isSep

/-- `str::trim`: drop whitespace from both ends (the ASCII whitespace
characters; the Unicode extras of Rust's `char::is_whitespace` are not
modelled). -/
def trimWs (s : Text) : Text :=
  (s.dropWhile Char.isWhitespace).rdropWhile Char.isWhitespace

/-- `String::ends_with(MAIN_SEPARATOR)` on Unix: the last character is `/`. -/
def endsWithMainSep (s : Text) : Bool :=
  s.getLast? = some '/'

/-- The kind snapshot of `std::fs::Metadata` taken by `symlink_metadata`. -/
structure Meta where
  isFile : Bool
  isDir : Bool
  isSymlink : Bool
deriving DecidableEq, Repr

/-- `Source` (lib.rs): one filesystem entry under consideration. -/
structure Source where
  text : Text
  path : Path
  abs : Path
  meta : Meta
deriving DecidableEq, Repr

/-- `Destination` (lib.rs): the target implied by one edited line. -/
structure Destination where
  text : Text
  path : Path
deriving DecidableEq, Repr

/-- `OperationKind` (lib.rs): only `Move` exists. -/
inductive OperationKind where
  | move
deriving DecidableEq, Repr

/-- `Operation` (lib.rs): a source paired with a destination. -/
structure Operation where
  kind : OperationKind
  src : Source
  dst : Destination
deriving DecidableEq, Repr

/-- The five rejection reasons of `is_operational` (the source reports them
as `anyhow` messages; the model keeps the kind). -/
inductive ConflictKind where
  | missingName
  | duplicateDestination
  | nestedDestination
  | destinationExists
  | sourceContainsDestination
deriving DecidableEq, Repr

/-- The error outcomes of the modelled functions.  The source uses `anyhow`
messages; the model keeps one constructor per `bail!`/`?` site.  The two
`panic` constructors stand for the `unwrap` calls in `execute_move`. -/
inductive Err where
  | accessFailed
  | readDirFailed
  | normalizeFailed
  | rootSource
  | noFileName
  | duplicateSource
  | emptyDirectory
  | lineCountMismatch
  | conflict (kind : ConflictKind)
  | editUnavailable
  | promptUnavailable
  | panicNoParent
  | panicNoFileName
deriving DecidableEq, Repr

/-- `CommandLine` (lib.rs), restricted to the fields the core reads.  The
`exclude_pattern : Option<Regex>` is injected as a predicate on display text
(`None` is the constantly-false predicate); glob patterns themselves are
external (spec section 6). -/
structure Args where
  verbose : Bool
  sort : Bool
  absolute : Bool
  directory : Bool
  with_hidden : Bool
  exclude_pattern : Text → Bool
  copy : Bool
  dry_run : Bool
  oops : Bool
  quiet : Bool

/-- The injected read-only view of the external world: filesystem queries,
the `normpath` canonicalizer (`absolute` in lib.rs), the current directory,
and the `natord` natural-order comparator. -/
structure FsView where
  pathExists : Path → Bool
  isDir : Path → Bool
  isSymlink : Path → Bool
  meta : Path → Option Meta
  children : Path → Option (List Path)
  absFn : Path → Option Path
  currentDir : Path
  natLe : Text → Text → Bool

/-- One filesystem primitive issued by the execution engine.
`moveItems src dir` / `copyItems src dir` are `fs_extra::move_items` /
`copy_items`: relocate (duplicate) the entry at `src` into the directory
`dir`, keeping the entry's basename.  `rename` / `copyFile` are
`std::fs::rename` / `copy` with full source and target paths.
`createDirAll` is `std::fs::create_dir_all`: create the directory together
with all missing ancestors. -/
inductive FsAction where
  | createDirAll (dir : Path)
  | moveItems (src : Path) (dir : Path)
  | copyItems (src : Path) (dir : Path)
  | rename (src : Path) (dst : Path)
  | copyFile (src : Path) (dst : Path)
deriving DecidableEq, Repr

/-- `is_hidden` (lib.rs, Unix): the file name starts with `.`; an error when
the path has no file name. -/
def is_hidden (p : Path) : Except Err Bool :=
  match fileName p with
  | none => Except.error Err.noFileName
  | some n => Except.ok (n.head? = some '.')

/-- `put_source` (lib.rs): canonicalize, reject the root, skip hidden
entries (unless `with_hidden`), pick the display path (`abs` if `absolute`),
build the display text (trimming trailing separators), skip excluded
entries, snapshot the metadata, reject a duplicate canonical path, and
append the new source. -/
def put_source (fsv : FsView) (args : Args) (sources : List Source)
    (path : Path) : Except Err (List Source) :=
  match fsv.absFn path with
  | none => Except.error Err.normalizeFailed
  | some abs =>
    if parent abs = none then Except.error Err.rootSource
    else
      match is_hidden abs with
      | Except.error e => Except.error e
      | Except.ok hidden =>
        if !args.with_hidden && hidden then Except.ok sources
        else
          if args.exclude_pattern
              (rdropSeps (render (if args.absolute then abs else path))) then
            Except.ok sources
          else
            match fsv.meta (if args.absolute then abs else path) with
            | none => Except.error Err.accessFailed
            | some m =>
              if sources.any (fun src => decide (src.abs = abs)) then
                Except.error Err.duplicateSource
              else
                Except.ok (sources ++
                  [{ text := rdropSeps (render (if args.absolute then abs else path)),
                     path := if args.absolute then abs else path,
                     abs := abs, meta := m }])

/-- The `for child in children` loop of `sources_from`: `put_source` each
child in order, propagating the first error. -/
def putChildren (fsv : FsView) (args : Args) :
    List Source → List Path → Except Err (List Source)
  | sources, [] => Except.ok sources
  | sources, c :: cs =>
    match put_source fsv args sources c with
    | Except.error e => Except.error e
    | Except.ok sources' => putChildren fsv args sources' cs

/-- Insertion step of the sort used to model `sort_unstable_by`. -/
def insertLeBy {α : Type} (le : α → α → Bool) (x : α) : List α → List α
  | [] => [x]
  | y :: ys => if le x y then x :: y :: ys else y :: insertLeBy le x ys

/-- A sort by a boolean comparator, modelling `sort_unstable_by` with the
external `natord::compare` (any correct sort is an admissible model; the
source explicitly leaves the ordering choice open, spec section 9). -/
def sortLeBy {α : Type} (le : α → α → Bool) (l : List α) : List α :=
  l.foldr (insertLeBy le) []

/-- The per-pattern loop of `sources_from`: trim trailing separators, stat
without following symlinks; a file, symlink, or `--directory` adds one
source; otherwise list the directory's children, sort them naturally, add
each child, and fail if the collected source list is still empty. -/
def sourcesLoop (fsv : FsView) (args : Args) :
    List Source → List Text → Except Err (List Source)
  | sources, [] => Except.ok sources
  | sources, p :: rest =>
    match fsv.meta (parsePath (rdropSeps p)) with
    | none => Except.error Err.accessFailed
    | some stat =>
      if stat.isFile || stat.isSymlink || args.directory then
        match put_source fsv args sources (parsePath (rdropSeps p)) with
        | Except.error e => Except.error e
        | Except.ok sources' => sourcesLoop fsv args sources' rest
      else
        match fsv.children (parsePath (rdropSeps p)) with
        | none => Except.error Err.readDirFailed
        | some children =>
          match putChildren fsv args sources
              (sortLeBy (fun a b => fsv.natLe (render a) (render b)) children) with
          | Except.error e => Except.error e
          | Except.ok sources' =>
            if sources' = [] then Except.error Err.emptyDirectory
            else sourcesLoop fsv args sources' rest

/-- `sources_from` (lib.rs) over the pattern-expanded path list (the output
of `list_files`, whose glob expansion is external, spec section 6): run the
per-pattern loop, then sort naturally if `--sort`. -/
def sources_from (fsv : FsView) (args : Args) (paths : List Text) :
    Except Err (List Source) :=
  match sourcesLoop fsv args [] paths with
  | Except.error e => Except.error e
  | Except.ok sources =>
    Except.ok (if args.sort then sortLeBy (fun a b => fsv.natLe a.text b.text) sources else sources)

/-- One serialized listing line (lib.rs, `operations_from`): the source's
display text, with a trailing `/` appended when the path is currently a
non-symlink directory and the text does not already end with `/`. -/
def serializeLine (fsv : FsView) (src : Source) : Text :=
  if fsv.isDir src.path && !fsv.isSymlink src.path && !endsWithMainSep src.text then
    src.text ++ ['/']
  else src.text

/-- The initial editor text (lib.rs, `operations_from`): one line per
source, joined with `\n`. -/
def serialize (fsv : FsView) (sources : List Source) : Text :=
  joinChar '\n' (sources.map (serializeLine fsv))

/-- Parsing of the edited text (lib.rs, `operations_from`): split into
lines, trim each line, drop blank lines, trim trailing separators. -/
def parseLines (text : Text) : List Text :=
  (splitOnChar '\n' text).filterMap fun line =>
    if trimWs line = [] then none
    else some (rdropSeps (trimWs line))

/-- `is_operational` (lib.rs): the validation engine.  The five checks in
source order; `pathExists` is the live `Path::exists` query. -/
def is_operational (pathExists : Path → Bool) (operations : List Operation)
    (new_operation : Operation) : Except ConflictKind Unit :=
  if endsWithMainSep new_operation.dst.text &&
      (new_operation.src.meta.isFile || new_operation.src.meta.isSymlink) then
    Except.error ConflictKind.missingName
  else if operations.any (fun o => decide (o.dst.path = new_operation.dst.path)) then
    Except.error ConflictKind.duplicateDestination
  else if operations.any (fun o =>
      (ancestors o.dst.path).any (fun a => decide (a = new_operation.dst.path))) then
    Except.error ConflictKind.nestedDestination
  else if pathExists new_operation.dst.path then
    Except.error ConflictKind.destinationExists
  else if (ancestors new_operation.dst.path).any
      (fun d => decide (d = new_operation.src.path)) then
    Except.error ConflictKind.sourceContainsDestination
  else Except.ok ()

/-- Outcome of one pass over the `(source, line)` pairs: either every line
was processed, or some candidate was rejected; either way the operation list
reached so far is returned (the source mutates one `operations` vector). -/
inductive AttemptOutcome where
  | done (ops : List Operation)
  | rejected (ops : List Operation) (kind : ConflictKind)
deriving DecidableEq, Repr

/-- The `for (src, line)` loop of `operations_from`: skip a line whose
normalized path equals the source's path or canonical path, otherwise build
a candidate operation and validate it against the operations accepted so
far, stopping at the first rejection. -/
def processLines (fsv : FsView) :
    List Operation → List (Source × Text) → AttemptOutcome
  | ops, [] => AttemptOutcome.done ops
  | ops, (src, line) :: rest =>
    if normalize (parsePath line) = src.path ∨ normalize (parsePath line) = src.abs then
      processLines fsv ops rest
    else
      match is_operational fsv.pathExists ops
          { kind := OperationKind.move, src := src,
            dst := { text := line, path := normalize (parsePath line) } } with
      | Except.error kind => AttemptOutcome.rejected ops kind
      | Except.ok _ =>
        processLines fsv
          (ops ++ [{ kind := OperationKind.move, src := src,
                     dst := { text := line, path := normalize (parsePath line) } }]) rest

/-- The `'redo` loop of `operations_from`.  Each iteration consumes the next
editor output; a line-count mismatch or a rejected candidate either prompts
(interactive mode, consuming the next prompt answer: `true` re-edits,
`false` breaks out of the loop returning the operations accepted so far) or
is fatal (`--oops`).  The `operations` vector lives outside the loop in the
source, so it is threaded through redos unchanged.  An exhausted editor or
prompt script models the corresponding external call failing. -/
def opsLoop (fsv : FsView) (args : Args) (sources : List Source) :
    List Operation → List Text → List Bool → Except Err (List Operation)
  | _, [], _ => Except.error Err.editUnavailable
  | ops, text :: edits, answers =>
    if (parseLines text).length ≠ sources.length then
      if !args.oops then
        match answers with
        | [] => Except.error Err.promptUnavailable
        | true :: rest => opsLoop fsv args sources ops edits rest
        | false :: _ => Except.ok ops
      else Except.error Err.lineCountMismatch
    else
      match processLines fsv ops (sources.zip (parseLines text)) with
      | AttemptOutcome.done ops' => Except.ok ops'
      | AttemptOutcome.rejected opsSoFar kind =>
        if !args.oops then
          match answers with
          | [] => Except.error Err.promptUnavailable
          | true :: rest => opsLoop fsv args sources opsSoFar edits rest
          | false :: _ => Except.ok opsSoFar
        else Except.error (Err.conflict kind)

/-- `operations_from` (lib.rs): run the redo loop from an empty operation
vector.  `edits` is the list of texts successively returned by the external
editor, `answers` the list of redo-prompt replies (spec section 9). -/
def operations_from (fsv : FsView) (args : Args) (sources : List Source)
    (edits : List Text) (answers : List Bool) : Except Err (List Operation) :=
  opsLoop fsv args sources [] edits answers

/-- `execute_move` (lib.rs) as the trace of filesystem primitives issued:
compute the destination parent (the current directory when the destination
text has no separator), create it if absent, relocate when the source parent
is non-empty and differs from the destination parent, then rename (copy)
when the basename changes.  The two `unwrap` sites surface as errors. -/
def execute_move (fsv : FsView) (args : Args) (operation : Operation) :
    Except Err (List FsAction) :=
  match
    (if operation.dst.text.any (fun c => decide (c = '/')) then
      match parent operation.dst.path with
      | none => Except.error Err.panicNoParent
      | some p => Except.ok p
    else Except.ok fsv.currentDir : Except Err Path)
  with
  | Except.error e => Except.error e
  | Except.ok dstParent =>
    match fileName operation.src.path, fileName operation.dst.path with
    | some srcBasename, some dstBasename =>
      Except.ok
        ((if fsv.pathExists dstParent then [] else [FsAction.createDirAll dstParent]) ++
          (match parent operation.src.path with
          | some srcParent =>
            if srcParent ≠ [] ∧ srcParent ≠ dstParent then
              [if args.copy then FsAction.copyItems operation.src.path dstParent
               else FsAction.moveItems operation.src.path dstParent]
            else []
          | none => []) ++
          (if srcBasename ≠ dstBasename then
            [if args.copy then
              FsAction.copyFile (dstParent ++ [Component.normal srcBasename])
                (dstParent ++ [Component.normal dstBasename])
            else
              FsAction.rename (dstParent ++ [Component.normal srcBasename])
                (dstParent ++ [Component.normal dstBasename])]
          else []))
    | _, _ => Except.error Err.panicNoFileName

/-- `execute_operation` (lib.rs): log (not modelled), return without any
action under `--dry-run`, otherwise run `execute_move`. -/
def execute_operation (fsv : FsView) (args : Args) (o : Operation) :
    Except Err (List FsAction) :=
  match o.kind with
  | OperationKind.move =>
    if args.dry_run then Except.ok []
    else execute_move fsv args o

/-- The execution loop of `try_main`: execute each operation in order,
collecting the action trace; the processed counter is not incremented under
`--dry-run`. -/
def execLoop (fsv : FsView) (args : Args) :
    Nat → List FsAction → List Operation → Except Err (Nat × List FsAction)
  | processed, trace, [] => Except.ok (processed, trace)
  | processed, trace, o :: rest =>
    match execute_operation fsv args o with
    | Except.error e => Except.error e
    | Except.ok actions =>
      if args.dry_run then execLoop fsv args processed (trace ++ actions) rest
      else execLoop fsv args (processed + 1) (trace ++ actions) rest

/-- `try_main` (lib.rs): collect sources, build the operation batch, execute
it.  Returns the processed count paired with the full action trace (the
source returns only the count; the trace makes the filesystem effects
observable). -/
def try_main (fsv : FsView) (args : Args) (paths : List Text)
    (edits : List Text) (answers : List Bool) :
    Except Err (Nat × List FsAction) :=
  match sources_from fsv args paths with
  | Except.error e => Except.error e
  | Except.ok sources =>
    match operations_from fsv args sources edits answers with
    | Except.error e => Except.error e
    | Except.ok operations => execLoop fsv args 0 [] operations

/-- The operation list carried by either outcome of one pass. -/
def AttemptOutcome.ops : AttemptOutcome → List Operation
  | AttemptOutcome.done l => l
  | AttemptOutcome.rejected l _ => l

/-! ## Concrete scenarios (used by witnesses and counterexamples) -/

/-- The metadata snapshot of a plain file. -/
def fileMeta : Meta := { isFile := true, isDir := false, isSymlink := false }

/-- The metadata snapshot of a directory. -/
def dirMeta : Meta := { isFile := false, isDir := true, isSymlink := false }

/-- `CommandLine::default()`: every flag off, no exclude pattern. -/
def argsDefault : Args :=
  { verbose := false, sort := false, absolute := false, directory := false,
    with_hidden := false, exclude_pattern := fun _ => false, copy := false,
    dry_run := false, oops := false, quiet := false }

/-- A world in which no path exists and every query fails: enough for
validation runs that never consult the filesystem positively. -/
def fsvFalse : FsView :=
  { pathExists := fun _ => false, isDir := fun _ => false,
    isSymlink := fun _ => false, meta := fun _ => none,
    children := fun _ => none, absFn := fun _ => none,
    currentDir := [Component.rootDir], natLe := fun _ _ => true }

/-- The directory source `2/21/211` of the repository's `operate_normally`
test. -/
def srcDir211 : Source :=
  { text := ("2/21/211").toList, path := parsePath (("2/21/211").toList),
    abs := parsePath (("/t/2/21/211").toList), meta := dirMeta }

/-- The accepted operation `2/21/211 → moved-211` of `operate_normally`. -/
def opMoved211 : Operation :=
  { kind := OperationKind.move, src := srcDir211,
    dst := { text := ("moved-211").toList,
             path := parsePath (("moved-211").toList) } }

/-- The directory source `2/22` of `operate_normally`. -/
def srcDir22 : Source :=
  { text := ("2/22").toList, path := parsePath (("2/22").toList),
    abs := parsePath (("/t/2/22").toList), meta := dirMeta }

/-- The operation `2/22 → moved-211/moved-22` of `operate_normally`, whose
destination strictly descends from the accepted destination `moved-211`. -/
def opMoved22 : Operation :=
  { kind := OperationKind.move, src := srcDir22,
    dst := { text := ("moved-211/moved-22").toList,
             path := parsePath (("moved-211/moved-22").toList) } }

/-- The existing file `p` of the spec's swap scenario. -/
def srcP : Source :=
  { text := ("p").toList, path := parsePath (("p").toList),
    abs := parsePath (("/t/p").toList), meta := fileMeta }

/-- The existing file `q` of the swap scenario. -/
def srcQ : Source :=
  { text := ("q").toList, path := parsePath (("q").toList),
    abs := parsePath (("/t/q").toList), meta := fileMeta }

/-- The batch line retargeting `q` to the free name `free`. -/
def opQtoFree : Operation :=
  { kind := OperationKind.move, src := srcQ,
    dst := { text := ("free").toList, path := parsePath (("free").toList) } }

/-- The batch line retargeting `p` to `q`. -/
def opPtoQ : Operation :=
  { kind := OperationKind.move, src := srcP,
    dst := { text := ("q").toList, path := parsePath (("q").toList) } }

/-- The filesystem of the swap scenario: exactly `p` and `q` exist. -/
def peSwap : Path → Bool := fun p =>
  decide (p = parsePath (("p").toList) ∨ p = parsePath (("q").toList))

/-- A world for the composed move-and-rename scenario of the spec: the
source `a/b/c.txt` exists, the destination parent `x/y` does not. -/
def fsvMoveRen : FsView :=
  { pathExists := fun p => decide (p = parsePath (("a/b/c.txt").toList) ∨
      p = parsePath (("a/b").toList) ∨ p = parsePath (("a").toList)),
    isDir := fun _ => false, isSymlink := fun _ => false,
    meta := fun _ => none, children := fun _ => none,
    absFn := fun _ => none, currentDir := [Component.rootDir],
    natLe := fun _ _ => true }

/-- The operation `a/b/c.txt → x/y/renamed.txt` of the spec's composed
move-and-rename scenario. -/
def opMoveRen : Operation :=
  { kind := OperationKind.move,
    src := { text := ("a/b/c.txt").toList, path := parsePath (("a/b/c.txt").toList),
             abs := parsePath (("/t/a/b/c.txt").toList), meta := fileMeta },
    dst := { text := ("x/y/renamed.txt").toList,
             path := parsePath (("x/y/renamed.txt").toList) } }

/-! ### A world and operations for the redo/abort scenarios -/

/-- A world with two plain files `a` and `b` in the current directory
`/cwd`, and an existing entry `q` (so that a destination `q` is rejected
with `DestinationExists`). -/
def fsvRedo : FsView :=
  { pathExists := fun p => decide (p = parsePath (("q").toList) ∨
      p = [Component.rootDir, Component.normal (("cwd").toList)]),
    isDir := fun _ => false, isSymlink := fun _ => false,
    meta := fun p =>
      if p = parsePath (("a").toList) ∨ p = parsePath (("b").toList) then some fileMeta
      else none,
    children := fun _ => none,
    absFn := fun p => some (Component.rootDir :: Component.normal (("cwd").toList) :: p),
    currentDir := [Component.rootDir, Component.normal (("cwd").toList)],
    natLe := fun _ _ => true }

/-- The source `a` as collected by `sources_from` in `fsvRedo`. -/
def srcFileA : Source :=
  { text := ("a").toList, path := parsePath (("a").toList),
    abs := [Component.rootDir, Component.normal (("cwd").toList),
            Component.normal (("a").toList)],
    meta := fileMeta }

/-- The source `b` as collected by `sources_from` in `fsvRedo`. -/
def srcFileB : Source :=
  { text := ("b").toList, path := parsePath (("b").toList),
    abs := [Component.rootDir, Component.normal (("cwd").toList),
            Component.normal (("b").toList)],
    meta := fileMeta }

/-- The operation `a → x` accepted before the rejected line `b → q`. -/
def opAtoX : Operation :=
  { kind := OperationKind.move, src := srcFileA,
    dst := { text := ("x").toList, path := parsePath (("x").toList) } }

/-- The operation `a → y` accepted on the second edit attempt. -/
def opAtoY : Operation :=
  { kind := OperationKind.move, src := srcFileA,
    dst := { text := ("y").toList, path := parsePath (("y").toList) } }

/-! ### A world with a childless directory -/

/-- A world with a plain file `f` and a directory `d` that has no
children. -/
def fsvEmptyDir : FsView :=
  { pathExists := fun _ => false, isDir := fun _ => false,
    isSymlink := fun _ => false,
    meta := fun p =>
      if p = parsePath (("f").toList) then some fileMeta
      else if p = parsePath (("d").toList) then some dirMeta else none,
    children := fun p => if p = parsePath (("d").toList) then some [] else none,
    absFn := fun p => some (Component.rootDir :: p),
    currentDir := [Component.rootDir], natLe := fun _ _ => true }

/-- The dry-run variant of the default flags. -/
def argsDry : Args := { argsDefault with dry_run := true }

/-! ### Separator-edge predicates -/

/-- The text ends with one of the separators `/`, `\`. -/
def endsWithSep (s : Text) : Bool :=
  match s.getLast? with
  | some c => isSep c
  | none => false

/-- The result is an `operations_from` failure of kind `MissingName`. -/
def isMissingNameErr : Except Err (List Operation) → Bool
  | Except.error (Err.conflict ConflictKind.missingName) => true
  | _ => false

/-! ### Well-behaved names and collected path shapes -/

/-- The optional edge character is absent or not whitespace. -/
def notWsEdge : Option Char → Bool
  | some c => !c.isWhitespace
  | none => true

/-- A well-behaved component name: non-empty; contains no separator,
backslash or newline; is not `.` or `..`; does not begin or end with
whitespace.  Names violating these conditions are exactly the ones the
line-oriented round trip can distort (see the C7 counterexample). -/
def goodName (n : List Char) : Bool :=
  decide (n ≠ []) && decide ('/' ∉ n) && decide ('\\' ∉ n) &&
  decide ('\n' ∉ n) && decide (n ≠ ['.']) && decide (n ≠ ['.', '.']) &&
  notWsEdge n.head? && notWsEdge n.getLast?

/-- All components are normal components with well-behaved names. -/
def goodNames : Path → Bool
  | [] => true
  | Component.normal n :: rest => goodName n && goodNames rest
  | _ => false

/-- The shapes `sources_from` actually produces for a source's path (after
the lexical `normalize` of `list_files`): a non-empty run of well-behaved
normal components, optionally preceded by a single leading `..` or by the
root directory. -/
def sourceShape (p : Path) : Bool :=
  match p with
  | [] => false
  | Component.rootDir :: rest => decide (rest ≠ []) && goodNames rest
  | Component.parentDir :: rest => goodNames rest
  | Component.curDir :: _ => false
  | Component.normal n :: rest => goodName n && goodNames rest

/-- A source with a well-behaved name, as collected. -/
def srcGood : Source :=
  { text := ("good").toList, path := parsePath (("good").toList),
    abs := parsePath (("/t/good").toList), meta := fileMeta }

/-- A world containing one file whose name ` a` starts with a space. -/
def fsvWs : FsView :=
  { pathExists := fun _ => false, isDir := fun _ => false,
    isSymlink := fun _ => false,
    meta := fun p => if p = parsePath ((" a").toList) then some fileMeta else none,
    children := fun _ => none,
    absFn := fun p =>
      some (Component.rootDir :: Component.normal (("t").toList) :: p),
    currentDir := [Component.rootDir], natLe := fun _ _ => true }

/-- The collected source for the file ` a`. -/
def srcWs : Source :=
  { text := (" a").toList, path := parsePath ((" a").toList),
    abs := parsePath (("/t/ a").toList), meta := fileMeta }

/-- The spurious rename operation ` a → a` built from the unchanged
listing of the file ` a`. -/
def opWsRename : Operation :=
  { kind := OperationKind.move, src := srcWs,
    dst := { text := ("a").toList, path := parsePath (("a").toList) } }

/-! ## Lemmas and claim theorems -/

theorem normalize_append_no_parent :
    ∀ (l : Path), (∀ x ∈ l, x ≠ Component.parentDir) →
      ∀ acc, List.foldl normalizeStep acc l = acc ++ l := by
  intro l
  induction l with
  | nil => intro _ acc; simp
  | cons x xs ih =>
    intro h acc
    rw [List.foldl_cons]
    have hx : normalizeStep acc x = acc ++ [x] := by
      cases x with
      | parentDir => exact absurd rfl (h _ (List.mem_cons_self _ _))
      | rootDir => rfl
      | curDir => rfl
      | normal n => rfl
    rw [hx, ih (fun y hy => h y (List.mem_cons_of_mem _ hy)) (acc ++ [x]),
      List.append_assoc, List.singleton_append]

theorem is_operational_ok_nested (pe : Path → Bool) (ops : List Operation)
    (cand : Operation) (h : is_operational pe ops cand = Except.ok ()) :
    ∀ o ∈ ops, cand.dst.path ∉ ancestors o.dst.path := by
  intro o ho hmem
  have hany : (ops.any fun o =>
      (ancestors o.dst.path).any fun a => decide (a = cand.dst.path)) = true :=
    List.any_eq_true.mpr ⟨o, ho,
      List.any_eq_true.mpr ⟨cand.dst.path, hmem, by simp⟩⟩
  unfold is_operational at h
  split_ifs at h

/-- The no-ancestor-of-earlier invariant is preserved by one pass over the
`(source, line)` pairs: every appended operation passed the validation
engine against everything before it. -/
theorem processLines_pairwise (fsv : FsView) :
    ∀ (pairs : List (Source × Text)) (ops : List Operation),
      List.Pairwise (fun o1 o2 => o2.dst.path ∉ ancestors o1.dst.path) ops →
      List.Pairwise (fun o1 o2 => o2.dst.path ∉ ancestors o1.dst.path)
        (processLines fsv ops pairs).ops := by
  intro pairs
  induction pairs with
  | nil => intro ops h; exact h
  | cons pr rest ih =>
    intro ops h
    obtain ⟨src, line⟩ := pr
    unfold processLines
    split_ifs with hskip
    · exact ih ops h
    · cases hv : is_operational fsv.pathExists ops
        { kind := OperationKind.move, src := src,
          dst := { text := line, path := normalize (parsePath line) } } with
      | error k => exact h
      | ok u =>
        cases u
        refine ih _ (List.pairwise_append.mpr ⟨h, List.pairwise_singleton _ _, ?_⟩)
        intro a ha b hb
        rw [List.mem_singleton] at hb
        subst hb
        exact is_operational_ok_nested fsv.pathExists ops _ hv a ha

/-- The no-ancestor-of-earlier invariant survives the redo loop. -/
theorem opsLoop_pairwise (fsv : FsView) (args : Args) (sources : List Source) :
    ∀ (edits : List Text) (answers : List Bool) (ops res : List Operation),
      List.Pairwise (fun o1 o2 => o2.dst.path ∉ ancestors o1.dst.path) ops →
      opsLoop fsv args sources ops edits answers = Except.ok res →
      List.Pairwise (fun o1 o2 => o2.dst.path ∉ ancestors o1.dst.path) res := by
  intro edits
  induction edits with
  | nil => intro answers ops res _ h; exact absurd h (by simp [opsLoop])
  | cons text rest ih =>
    intro answers ops res hinv h
    unfold opsLoop at h
    by_cases hlen : (parseLines text).length ≠ sources.length
    · rw [if_pos hlen] at h
      by_cases hoops : (!args.oops) = true
      · rw [if_pos hoops] at h
        rcases answers with _ | ⟨b, answers'⟩
        · exact absurd h (by simp)
        · cases b
          · have h' : (Except.ok ops : Except Err (List Operation)) = Except.ok res := h
            injection h' with h2
            subst h2
            exact hinv
          · exact ih answers' ops res hinv h
      · rw [if_neg hoops] at h
        exact absurd h (by simp)
    · rw [if_neg hlen] at h
      split at h
      · rename_i ops' hpl
        injection h with h2
        subst h2
        have hout := processLines_pairwise fsv (sources.zip (parseLines text)) ops hinv
        rw [hpl] at hout
        exact hout
      · rename_i opsSoFar kind hpl
        have hout := processLines_pairwise fsv (sources.zip (parseLines text)) ops hinv
        rw [hpl] at hout
        by_cases hoops : (!args.oops) = true
        · rw [if_pos hoops] at h
          rcases answers with _ | ⟨b, answers'⟩
          · exact absurd h (by simp)
          · cases b
            · injection h with h2
              subst h2
              exact hout
            · exact ih answers' opsSoFar res hout h
        · rw [if_neg hoops] at h
          exact absurd h (by simp)

/-! ## C1 -/

/-- C1 (amended).  Part one: a candidate whose destination path is an
ancestor of, or equal to, an already-accepted destination is rejected
(as `DuplicateDestination` when equal, `NestedDestination` otherwise),
provided the earlier `MissingName` check does not fire.  Part two: in any
batch returned by `operations_from`, no operation's destination path is an
ancestor of, or equal to, the destination path of a later operation's
`ancestors` chain — that is, a later destination is never an
ancestor-or-equal of an earlier one.  (A destination that is a strict
descendant of an earlier destination is accepted; see the
counterexample.) -/
theorem c1_theorem :
    (∀ (pe : Path → Bool) (ops : List Operation) (cand : Operation),
      (endsWithMainSep cand.dst.text &&
        (cand.src.meta.isFile || cand.src.meta.isSymlink)) = false →
      (∃ o ∈ ops, cand.dst.path ∈ ancestors o.dst.path) →
      ∃ k, is_operational pe ops cand = Except.error k ∧
        (k = ConflictKind.duplicateDestination ∨ k = ConflictKind.nestedDestination)) ∧
    (∀ (fsv : FsView) (args : Args) (sources : List Source) (edits : List Text)
        (answers : List Bool) (ops : List Operation),
      operations_from fsv args sources edits answers = Except.ok ops →
      List.Pairwise (fun o1 o2 => o2.dst.path ∉ ancestors o1.dst.path) ops) := by
  constructor
  · intro pe ops cand h1 ⟨o, ho, hmem⟩
    unfold is_operational
    rw [if_neg (by simp [h1])]
    by_cases h2 : ops.any (fun o => decide (o.dst.path = cand.dst.path)) = true
    · rw [if_pos h2]
      exact ⟨ConflictKind.duplicateDestination, rfl, Or.inl rfl⟩
    · rw [if_neg h2, if_pos (List.any_eq_true.mpr ⟨o, ho,
        List.any_eq_true.mpr ⟨cand.dst.path, hmem, by simp⟩⟩)]
      exact ⟨ConflictKind.nestedDestination, rfl, Or.inr rfl⟩
  · intro fsv args sources edits answers ops h
    exact opsLoop_pairwise fsv args sources edits answers [] ops List.Pairwise.nil h

/-- C1 counterexample: a candidate whose destination path is a strict
descendant of an already-accepted destination is accepted by
`is_operational` (exactly the accepted pair of the repository's own
`operate_normally` test), so the claimed descendant rejection does not hold
and the claimed batch containment invariant fails. -/
theorem c1_counterexample :
    opMoved211.dst.path ∈ ancestors opMoved22.dst.path ∧
    opMoved211.dst.path ≠ opMoved22.dst.path ∧
    is_operational (fun _ => false) [opMoved211] opMoved22 = Except.ok () :=
  ⟨by decide, by decide, rfl⟩

/-- Witness for C1: with `moved-211/moved-22` accepted, the candidate
destination `moved-211` (a strict ancestor) is rejected; and a concrete
accepted batch satisfies the pairwise no-ancestor-of-earlier invariant. -/
theorem c1_witness :
    (∃ k, is_operational (fun _ => false) [opMoved22] opMoved211 = Except.error k ∧
      (k = ConflictKind.duplicateDestination ∨ k = ConflictKind.nestedDestination)) ∧
    List.Pairwise (fun o1 o2 => o2.dst.path ∉ ancestors o1.dst.path) [opMoved211] := by
  constructor
  · exact c1_theorem.1 (fun _ => false) [opMoved22] opMoved211 (by decide)
      ⟨opMoved22, by simp, by decide⟩
  · exact c1_theorem.2 fsvFalse argsDefault [srcDir211]
      [("moved-211").toList] [] [opMoved211] rfl

/-! ## C4 -/

/-- C4: provided the three earlier checks (`MissingName`,
`DuplicateDestination`, `NestedDestination`) do not fire, `is_operational`
rejects the candidate with `DestinationExists` exactly when the
destination path exists on the filesystem at validation time; the
right-hand side consults only the filesystem view, never the other
operations of the batch. -/
theorem c4_theorem (pe : Path → Bool) (ops : List Operation) (cand : Operation)
    (h1 : (endsWithMainSep cand.dst.text &&
      (cand.src.meta.isFile || cand.src.meta.isSymlink)) = false)
    (h2 : (ops.any fun o => decide (o.dst.path = cand.dst.path)) = false)
    (h3 : (ops.any fun o =>
      (ancestors o.dst.path).any fun a => decide (a = cand.dst.path)) = false) :
    is_operational pe ops cand = Except.error ConflictKind.destinationExists ↔
      pe cand.dst.path = true := by
  unfold is_operational
  rw [if_neg (by simp [h1]), if_neg (by simp [h2]), if_neg (by simp [h3])]
  by_cases hpe : pe cand.dst.path = true
  · rw [if_pos hpe]
    simp [hpe]
  · rw [if_neg hpe]
    constructor
    · intro hcontra
      split_ifs at hcontra
      all_goals simp_all
    · intro hc
      exact absurd hc hpe

/-- Witness for C4, the spec's swap limitation: with `q → free` already
accepted in the batch, the line `p → q` is still rejected with
`DestinationExists`, because `q` exists on the filesystem at validation
time. -/
theorem c4_witness :
    is_operational peSwap [opQtoFree] opPtoQ =
      Except.error ConflictKind.destinationExists :=
  (c4_theorem peSwap [opQtoFree] opPtoQ (by decide) (by decide) (by decide)).mpr
    (by decide)

/-! ## C5 -/

/-- C5: every successful `execute_move` issues its actions in the two-step
protocol order.  The trace decomposes as create-parent actions, then
relocation actions, then rename actions, where: the destination parent is
`dst.path`'s parent when the destination text contains a separator and the
current directory otherwise; the parent is created (with missing ancestors,
the semantics of `create_dir_all`) only when absent; a relocation
(`move_items`/`copy_items`, which keeps the entry's basename) is issued only
when the source's parent is non-empty and differs from the destination
parent, and it targets the destination parent; a rename (copy) is issued
only when the source and destination basenames differ, it maps
`(destinationParent, sourceBasename)` to
`(destinationParent, destinationBasename)`, and it never changes the parent
directory. -/
theorem c5_theorem (fsv : FsView) (args : Args) (op : Operation)
    (tr : List FsAction) (h : execute_move fsv args op = Except.ok tr) :
    ∃ dstParent trCreate trMove trRen,
      tr = trCreate ++ trMove ++ trRen ∧
      (if op.dst.text.any (fun c => decide (c = '/')) then
        parent op.dst.path = some dstParent
      else dstParent = fsv.currentDir) ∧
      trCreate =
        (if fsv.pathExists dstParent then [] else [FsAction.createDirAll dstParent]) ∧
      (trMove = [] ∨
        ∃ srcParent, parent op.src.path = some srcParent ∧ srcParent ≠ [] ∧
          srcParent ≠ dstParent ∧
          trMove = [if args.copy then FsAction.copyItems op.src.path dstParent
                    else FsAction.moveItems op.src.path dstParent]) ∧
      (trRen = [] ∨
        ∃ srcBasename dstBasename,
          fileName op.src.path = some srcBasename ∧
          fileName op.dst.path = some dstBasename ∧
          srcBasename ≠ dstBasename ∧
          trRen = [if args.copy then
                    FsAction.copyFile (dstParent ++ [Component.normal srcBasename])
                      (dstParent ++ [Component.normal dstBasename])
                   else
                    FsAction.rename (dstParent ++ [Component.normal srcBasename])
                      (dstParent ++ [Component.normal dstBasename])] ∧
          (dstParent ++ [Component.normal srcBasename]).dropLast =
            (dstParent ++ [Component.normal dstBasename]).dropLast) := by
  unfold execute_move at h
  split at h
  · exact absurd h (by simp)
  · rename_i dstParent hpar
    split at h
    · rename_i srcBasename dstBasename hsrcB hdstB
      injection h with h2
      subst h2
      refine ⟨dstParent, _, _, _, rfl, ?_, rfl, ?_, ?_⟩
      · split at hpar
        · rename_i hsep
          rw [if_pos hsep]
          split at hpar
          · exact absurd hpar (by simp)
          · rename_i p hp
            injection hpar with h3
            subst h3
            exact hp
        · rename_i hsep
          rw [if_neg hsep]
          injection hpar with h3
          exact h3.symm
      · cases hsp : parent op.src.path with
        | none => exact Or.inl rfl
        | some srcParent =>
          by_cases hcond : srcParent ≠ [] ∧ srcParent ≠ dstParent
          · exact Or.inr ⟨srcParent, rfl, hcond.1, hcond.2, by
              dsimp only
              rw [if_pos hcond]⟩
          · refine Or.inl ?_
            dsimp only
            rw [if_neg hcond]
      · by_cases hbn : srcBasename ≠ dstBasename
        · refine Or.inr ⟨srcBasename, dstBasename, hsrcB, hdstB, hbn, by rw [if_pos hbn], ?_⟩
          simp
        · rw [if_neg hbn]
          exact Or.inl rfl
    · exact absurd h (by simp)

/-- Witness for C5: the composed move-and-rename operation succeeds and its
trace decomposes per the two-step protocol. -/
theorem c5_witness :
    ∃ dstParent trCreate trMove trRen,
      (FsAction.createDirAll (parsePath (("x/y").toList)) ::
        FsAction.moveItems (parsePath (("a/b/c.txt").toList)) (parsePath (("x/y").toList)) ::
        [FsAction.rename (parsePath (("x/y/c.txt").toList))
          (parsePath (("x/y/renamed.txt").toList))]) = trCreate ++ trMove ++ trRen ∧
      (if opMoveRen.dst.text.any (fun c => decide (c = '/')) then
        parent opMoveRen.dst.path = some dstParent
      else dstParent = fsvMoveRen.currentDir) ∧
      trCreate =
        (if fsvMoveRen.pathExists dstParent then []
         else [FsAction.createDirAll dstParent]) ∧
      (trMove = [] ∨
        ∃ srcParent, parent opMoveRen.src.path = some srcParent ∧ srcParent ≠ [] ∧
          srcParent ≠ dstParent ∧
          trMove = [if argsDefault.copy then
                      FsAction.copyItems opMoveRen.src.path dstParent
                    else FsAction.moveItems opMoveRen.src.path dstParent]) ∧
      (trRen = [] ∨
        ∃ srcBasename dstBasename,
          fileName opMoveRen.src.path = some srcBasename ∧
          fileName opMoveRen.dst.path = some dstBasename ∧
          srcBasename ≠ dstBasename ∧
          trRen = [if argsDefault.copy then
                    FsAction.copyFile (dstParent ++ [Component.normal srcBasename])
                      (dstParent ++ [Component.normal dstBasename])
                   else
                    FsAction.rename (dstParent ++ [Component.normal srcBasename])
                      (dstParent ++ [Component.normal dstBasename])] ∧
          (dstParent ++ [Component.normal srcBasename]).dropLast =
            (dstParent ++ [Component.normal dstBasename]).dropLast) :=
  c5_theorem fsvMoveRen argsDefault opMoveRen _ rfl

/-- C2 (code bug): editing the listing of files `a`, `b` to `x`, `q` makes
line two rejected (`q` exists); the user answers the redo/abort prompt with
abort (`false`).  The run nevertheless returns the operation `a → x`
accepted before the rejection, and `try_main` executes it: the processed
count is 1 and a rename is issued, not the zero-mutation abort the spec
promises. -/
theorem c2_theorem :
    operations_from fsvRedo argsDefault [srcFileA, srcFileB]
      [("x\nq").toList] [false] = Except.ok [opAtoX] ∧
    is_operational fsvRedo.pathExists [opAtoX]
      { kind := OperationKind.move, src := srcFileB,
        dst := { text := ("q").toList, path := parsePath (("q").toList) } } =
      Except.error ConflictKind.destinationExists ∧
    try_main fsvRedo argsDefault [("a").toList, ("b").toList]
      [("x\nq").toList] [false] =
      Except.ok (1,
        [FsAction.rename
          [Component.rootDir, Component.normal (("cwd").toList),
           Component.normal (("a").toList)]
          [Component.rootDir, Component.normal (("cwd").toList),
           Component.normal (("x").toList)]]) :=
  ⟨rfl, rfl, rfl⟩

/-- C3 (code bug): the `operations` vector lives outside the `'redo` loop,
so operations accepted during a failed attempt survive a redo.  First
attempt `x`, `q` accepts `a → x` then rejects `b → q`; the user redoes and
submits `y`, `b`.  The returned batch contains both `a → x` and `a → y` —
two operations for the same source — instead of discarding the stale
`a → x`. -/
theorem c3_theorem :
    operations_from fsvRedo argsDefault [srcFileA, srcFileB]
      [("x\nq").toList, ("y\nb").toList] [true] = Except.ok [opAtoX, opAtoY] ∧
    opAtoX.src = opAtoY.src ∧ opAtoX ≠ opAtoY :=
  ⟨rfl, rfl, by decide⟩

/-! ## C6 -/

/-- C6: `put_source` fails with the duplicate-source error whenever the new
entry's canonical path equals an already-collected source's canonical path
and the entry is not filtered away before the duplicate check
(canonicalization succeeds, the entry is not the root, not skipped as
hidden, not excluded, and its metadata is readable); and any
source-collection error aborts `try_main` before any edit or execution
step, with no filesystem action. -/
theorem c6_theorem :
    (∀ (fsv : FsView) (args : Args) (sources : List Source) (path abs : Path)
        (hid : Bool) (m : Meta),
      fsv.absFn path = some abs →
      parent abs ≠ none →
      is_hidden abs = Except.ok hid →
      (!args.with_hidden && hid) = false →
      args.exclude_pattern
        (rdropSeps (render (if args.absolute then abs else path))) = false →
      fsv.meta (if args.absolute then abs else path) = some m →
      (sources.any fun src => decide (src.abs = abs)) = true →
      put_source fsv args sources path = Except.error Err.duplicateSource) ∧
    (∀ (fsv : FsView) (args : Args) (paths edits : List Text)
        (answers : List Bool) (e : Err),
      sources_from fsv args paths = Except.error e →
      try_main fsv args paths edits answers = Except.error e) := by
  constructor
  · intro fsv args sources path abs hid m habs hpar hhid hskip hex hmeta hdup
    unfold put_source
    rw [habs]
    dsimp only
    rw [if_neg (by simp [hpar]), hhid]
    dsimp only
    rw [if_neg (by simp [hskip]), if_neg (by simp [hex]), hmeta]
    dsimp only
    rw [if_pos hdup]
  · intro fsv args paths edits answers e h
    unfold try_main
    rw [h]

/-- Witness for C6: collecting `a` a second time with `a` already collected
fails with the duplicate-source error, and a failing collection (an
unreadable pattern) propagates out of `try_main` untouched. -/
theorem c6_witness :
    put_source fsvRedo argsDefault [srcFileA] (parsePath (("a").toList)) =
      Except.error Err.duplicateSource ∧
    try_main fsvRedo argsDefault [("nope").toList] [] [] =
      Except.error Err.accessFailed := by
  constructor
  · exact c6_theorem.1 fsvRedo argsDefault [srcFileA] _ _ false fileMeta rfl
      (by decide) rfl rfl rfl rfl (by decide)
  · exact c6_theorem.2 fsvRedo argsDefault [("nope").toList] [] [] Err.accessFailed rfl

/-- C8 counterexample: expanding the file `f` and then the childless
directory `d` (without `--directory`) succeeds — the emptiness check looks
at the globally collected list, which already holds `f` — although the
claim demands an error regardless of what was collected before. -/
theorem c8_counterexample :
    sources_from fsvEmptyDir argsDefault [("f").toList, ("d").toList] =
      Except.ok [{ text := ("f").toList, path := parsePath (("f").toList),
                   abs := [Component.rootDir, Component.normal (("f").toList)],
                   meta := fileMeta }] := rfl

/-- C8 (amended): expanding a pattern that resolves to a directory (not a
file or symlink, and `--directory` unset) whose admitted children leave the
collected list empty is an error — provided no source was collected before
it (here: it is the first pattern). -/
theorem c8_theorem (fsv : FsView) (args : Args) (p : Text) (rest : List Text)
    (stat : Meta) (cs : List Path)
    (hm : fsv.meta (parsePath (rdropSeps p)) = some stat)
    (hk : (stat.isFile || stat.isSymlink || args.directory) = false)
    (hc : fsv.children (parsePath (rdropSeps p)) = some cs)
    (he : putChildren fsv args []
      (sortLeBy (fun a b => fsv.natLe (render a) (render b)) cs) = Except.ok []) :
    sources_from fsv args (p :: rest) = Except.error Err.emptyDirectory := by
  unfold sources_from sourcesLoop
  rw [hm]
  dsimp only
  rw [if_neg (by simp [hk]), hc]
  dsimp only
  rw [he]
  dsimp only
  rw [if_pos rfl]

/-- Witness for C8: the childless directory `d` as the sole (hence first)
pattern is an error. -/
theorem c8_witness :
    sources_from fsvEmptyDir argsDefault [("d").toList] =
      Except.error Err.emptyDirectory :=
  c8_theorem fsvEmptyDir argsDefault (("d").toList) [] dirMeta [] rfl rfl rfl rfl

/-! ## C9: dry-run -/

/-- `put_source` never reads `dry_run`. -/
theorem put_source_dry (fsv : FsView) (args : Args) (b : Bool)
    (sources : List Source) (path : Path) :
    put_source fsv { args with dry_run := b } sources path =
      put_source fsv args sources path := rfl

/-- The children loop never reads `dry_run`. -/
theorem putChildren_dry (fsv : FsView) (args : Args) (b : Bool) :
    ∀ (cs : List Path) (sources : List Source),
      putChildren fsv { args with dry_run := b } sources cs =
        putChildren fsv args sources cs := by
  intro cs
  induction cs with
  | nil => intro sources; rfl
  | cons c rest ih =>
    intro sources
    unfold putChildren
    rw [put_source_dry]
    cases put_source fsv args sources c with
    | error e => rfl
    | ok sources' => exact ih sources'

/-- The pattern loop never reads `dry_run`. -/
theorem sourcesLoop_dry (fsv : FsView) (args : Args) (b : Bool) :
    ∀ (paths : List Text) (sources : List Source),
      sourcesLoop fsv { args with dry_run := b } sources paths =
        sourcesLoop fsv args sources paths := by
  intro paths
  induction paths with
  | nil => intro sources; rfl
  | cons p rest ih =>
    intro sources
    unfold sourcesLoop
    cases fsv.meta (parsePath (rdropSeps p)) with
    | none => rfl
    | some stat =>
      dsimp only
      by_cases hk : (stat.isFile || stat.isSymlink || args.directory) = true
      · rw [if_pos hk, if_pos hk, put_source_dry]
        cases put_source fsv args sources (parsePath (rdropSeps p)) with
        | error e => rfl
        | ok sources' => exact ih sources'
      · rw [if_neg hk, if_neg hk]
        cases fsv.children (parsePath (rdropSeps p)) with
        | none => rfl
        | some children =>
          dsimp only
          rw [putChildren_dry]
          cases putChildren fsv args sources
              (sortLeBy (fun a b => fsv.natLe (render a) (render b)) children) with
          | error e => rfl
          | ok sources' =>
            dsimp only
            by_cases hemp : sources' = []
            · rw [if_pos hemp, if_pos hemp]
            · rw [if_neg hemp, if_neg hemp]
              exact ih sources'

/-- `sources_from` never reads `dry_run`. -/
theorem sources_from_dry (fsv : FsView) (args : Args) (b : Bool)
    (paths : List Text) :
    sources_from fsv { args with dry_run := b } paths =
      sources_from fsv args paths := by
  unfold sources_from
  rw [sourcesLoop_dry]

/-- The redo loop never reads `dry_run`. -/
theorem opsLoop_dry (fsv : FsView) (args : Args) (b : Bool)
    (sources : List Source) :
    ∀ (edits : List Text) (ops : List Operation) (answers : List Bool),
      opsLoop fsv { args with dry_run := b } sources ops edits answers =
        opsLoop fsv args sources ops edits answers := by
  intro edits
  induction edits with
  | nil => intro ops answers; rfl
  | cons text rest ih =>
    intro ops answers
    unfold opsLoop
    dsimp only
    by_cases hlen : (parseLines text).length ≠ sources.length
    · rw [if_pos hlen, if_pos hlen]
      by_cases hoops : (!args.oops) = true
      · rw [if_pos hoops, if_pos hoops]
        rcases answers with _ | ⟨a, answers'⟩
        · rfl
        · cases a
          · rfl
          · exact ih ops answers'
      · rw [if_neg hoops, if_neg hoops]
    · rw [if_neg hlen, if_neg hlen]
      cases processLines fsv ops (sources.zip (parseLines text)) with
      | done ops' => rfl
      | rejected opsSoFar kind =>
        dsimp only
        by_cases hoops : (!args.oops) = true
        · rw [if_pos hoops, if_pos hoops]
          rcases answers with _ | ⟨a, answers'⟩
          · rfl
          · cases a
            · rfl
            · exact ih opsSoFar answers'
        · rw [if_neg hoops, if_neg hoops]

/-- `operations_from` never reads `dry_run`: validation in a dry run is the
same as in a real run. -/
theorem operations_from_dry (fsv : FsView) (args : Args) (b : Bool)
    (sources : List Source) (edits : List Text) (answers : List Bool) :
    operations_from fsv { args with dry_run := b } sources edits answers =
      operations_from fsv args sources edits answers := by
  unfold operations_from
  rw [opsLoop_dry]

/-- Under `dry_run`, the execution loop performs no action and counts
nothing. -/
theorem execLoop_dry (fsv : FsView) (args : Args) (h : args.dry_run = true) :
    ∀ (ops : List Operation) (n : Nat) (tr : List FsAction),
      execLoop fsv args n tr ops = Except.ok (n, tr) := by
  intro ops
  induction ops with
  | nil => intro n tr; rfl
  | cons o rest ih =>
    intro n tr
    obtain ⟨k, s, d⟩ := o
    cases k
    unfold execLoop execute_operation
    rw [h, if_pos rfl]
    dsimp only
    rw [if_pos rfl, List.append_nil]
    exact ih n tr

/-- C9: with `dry_run` set, either the whole run succeeds with a processed
count of 0 and an empty action trace (no filesystem mutation, `execute_move`
never contributes an action), or it fails with exactly the error the
corresponding real (non-dry) run fails with — collection and validation do
not read `dry_run`. -/
theorem c9_theorem (fsv : FsView) (args : Args) (paths edits : List Text)
    (answers : List Bool) (h : args.dry_run = true) :
    try_main fsv args paths edits answers = Except.ok (0, []) ∨
    ∃ e, try_main fsv args paths edits answers = Except.error e ∧
      try_main fsv { args with dry_run := false } paths edits answers =
        Except.error e := by
  unfold try_main
  rw [sources_from_dry fsv args false paths]
  cases hs : sources_from fsv args paths with
  | error e => exact Or.inr ⟨e, rfl, rfl⟩
  | ok sources =>
    dsimp only
    rw [operations_from_dry fsv args false sources edits answers]
    cases ho : operations_from fsv args sources edits answers with
    | error e => exact Or.inr ⟨e, rfl, rfl⟩
    | ok ops =>
      dsimp only
      exact Or.inl (execLoop_dry fsv args h ops 0 [])

/-- Trimming trailing separators leaves a text that does not end with a
separator. -/
theorem rdropSeps_not_endsWithSep (s : Text) :
    endsWithSep (rdropSeps s) = false := by
  unfold endsWithSep
  cases h : (rdropSeps s).getLast? with
  | none => rfl
  | some c =>
    have hne : rdropSeps s ≠ [] := by
      intro hh
      rw [hh] at h
      exact absurd h (by simp)
    have hlast := List.rdropWhile_last_not isSep s hne
    rw [List.getLast?_eq_getLast _ hne] at h
    injection h with h2
    subst h2
    exact Bool.not_eq_true _ ▸ eq_false_of_ne_true hlast

/-- Every line produced by the edit-text parser ends in no separator. -/
theorem parseLines_not_endsWithSep (text : Text) :
    ∀ l ∈ parseLines text, endsWithSep l = false := by
  intro l hl
  obtain ⟨raw, _, heq⟩ := List.mem_filterMap.mp hl
  by_cases hemp : trimWs raw = []
  · rw [if_pos hemp] at heq
    exact absurd heq (by simp)
  · rw [if_neg hemp] at heq
    injection heq with h2
    subst h2
    exact rdropSeps_not_endsWithSep (trimWs raw)

/-- A text that ends in no separator in particular does not end with the
main separator `/`. -/
theorem endsWithMainSep_false_of (s : Text) (h : endsWithSep s = false) :
    endsWithMainSep s = false := by
  unfold endsWithSep at h
  unfold endsWithMainSep
  cases hl : s.getLast? with
  | none => simp
  | some c =>
    rw [hl] at h
    unfold isSep at h
    simp only [Bool.or_eq_false_iff] at h
    simp [Option.some.injEq]
    intro hc
    exact absurd (by rw [hc]; rfl) (by simp [h.1] : ¬(decide (c = '/') = true))

/-- If the candidate's destination text does not end with `/`, any rejection
by the validation engine is of a kind other than `MissingName`. -/
theorem is_operational_error_not_missing (pe : Path → Bool)
    (ops : List Operation) (cand : Operation)
    (h : endsWithMainSep cand.dst.text = false) (k : ConflictKind)
    (hk : is_operational pe ops cand = Except.error k) :
    k ≠ ConflictKind.missingName := by
  unfold is_operational at hk
  rw [if_neg (by simp [h])] at hk
  split_ifs at hk
  all_goals injection hk with h2
  all_goals subst h2
  all_goals decide

/-- No pass over pairs whose lines end in no separator can be rejected with
`MissingName`. -/
theorem processLines_not_missing (fsv : FsView) :
    ∀ (pairs : List (Source × Text)),
      (∀ pr ∈ pairs, endsWithSep pr.2 = false) →
      ∀ (ops opsSoFar : List Operation) (k : ConflictKind),
        processLines fsv ops pairs = AttemptOutcome.rejected opsSoFar k →
        k ≠ ConflictKind.missingName := by
  intro pairs
  induction pairs with
  | nil =>
    intro _ ops opsSoFar k h
    exact absurd h (by simp [processLines])
  | cons pr rest ih =>
    intro hprs ops opsSoFar k h
    obtain ⟨src, line⟩ := pr
    unfold processLines at h
    split_ifs at h with hskip
    · exact ih (fun pr hpr => hprs pr (List.mem_cons_of_mem _ hpr)) ops opsSoFar k h
    · cases hv : is_operational fsv.pathExists ops
        { kind := OperationKind.move, src := src,
          dst := { text := line, path := normalize (parsePath line) } } with
      | error kind =>
        rw [hv] at h
        injection h with h1 h2
        rw [← h2]
        exact is_operational_error_not_missing fsv.pathExists ops _
          (endsWithMainSep_false_of line (hprs (src, line) (List.mem_cons_self _ _))) kind hv
      | ok u =>
        rw [hv] at h
        exact ih (fun pr hpr => hprs pr (List.mem_cons_of_mem _ hpr)) _ opsSoFar k h

/-- The redo loop never surfaces a `MissingName` failure. -/
theorem opsLoop_not_missing (fsv : FsView) (args : Args) (sources : List Source) :
    ∀ (edits : List Text) (ops : List Operation) (answers : List Bool),
      isMissingNameErr (opsLoop fsv args sources ops edits answers) = false := by
  intro edits
  induction edits with
  | nil => intro ops answers; rfl
  | cons text rest ih =>
    intro ops answers
    unfold opsLoop
    by_cases hlen : (parseLines text).length ≠ sources.length
    · rw [if_pos hlen]
      by_cases hoops : (!args.oops) = true
      · rw [if_pos hoops]
        rcases answers with _ | ⟨a, answers'⟩
        · rfl
        · cases a
          · rfl
          · exact ih ops answers'
      · rw [if_neg hoops]
        rfl
    · rw [if_neg hlen]
      cases hpl : processLines fsv ops (sources.zip (parseLines text)) with
      | done ops' => rfl
      | rejected opsSoFar kind =>
        have hkind : kind ≠ ConflictKind.missingName := by
          refine processLines_not_missing fsv (sources.zip (parseLines text))
            ?_ ops opsSoFar kind hpl
          intro pr hpr
          obtain ⟨s, l⟩ := pr
          exact parseLines_not_endsWithSep text l (List.of_mem_zip hpr).2
        dsimp only
        by_cases hoops : (!args.oops) = true
        · rw [if_pos hoops]
          rcases answers with _ | ⟨a, answers'⟩
          · rfl
          · cases a
            · rfl
            · exact ih opsSoFar answers'
        · rw [if_neg hoops]
          cases kind <;> first | rfl | exact absurd rfl hkind

/-- C10: every line produced by the edit-text parser has its trailing
separators removed, so a destination built from it never ends in a path
separator, and consequently `operations_from` can never fail with the
validation engine's `MissingName` kind — that rejection branch is
unreachable from the edit pipeline. -/
theorem c10_theorem :
    (∀ text : Text, (parseLines text).all (fun l => !endsWithSep l) = true) ∧
    (∀ (fsv : FsView) (args : Args) (sources : List Source) (edits : List Text)
        (answers : List Bool),
      isMissingNameErr (operations_from fsv args sources edits answers) = false) := by
  constructor
  · intro text
    rw [List.all_eq_true]
    intro l hl
    rw [parseLines_not_endsWithSep text l hl]
    rfl
  · intro fsv args sources edits answers
    exact opsLoop_not_missing fsv args sources edits [] answers

theorem goodNames_eq_map :
    ∀ (l : Path), goodNames l = true →
      ∃ ns : List (List Char),
        l = List.map Component.normal ns ∧ ∀ n ∈ ns, goodName n = true := by
  intro l
  induction l with
  | nil => intro _; exact ⟨[], rfl, by simp⟩
  | cons x rest ih =>
    intro h
    cases x with
    | normal n =>
      rw [goodNames, Bool.and_eq_true] at h
      obtain ⟨ns, hmap, hgood⟩ := ih h.2
      refine ⟨n :: ns, by rw [List.map_cons, hmap], ?_⟩
      intro m hm
      rcases List.mem_cons.mp hm with hm | hm
      · rw [hm]; exact h.1
      · exact hgood m hm
    | rootDir => exact absurd h (by simp [goodNames])
    | curDir => exact absurd h (by simp [goodNames])
    | parentDir => exact absurd h (by simp [goodNames])

theorem sourceShape_cases (p : Path) (hs : sourceShape p = true) :
    (∃ ns : List (List Char), p = List.map Component.normal ns ∧ ns ≠ [] ∧
      ∀ n ∈ ns, goodName n = true) ∨
    (∃ ns : List (List Char),
      p = Component.parentDir :: List.map Component.normal ns ∧
      ∀ n ∈ ns, goodName n = true) ∨
    (∃ ns : List (List Char),
      p = Component.rootDir :: List.map Component.normal ns ∧ ns ≠ [] ∧
      ∀ n ∈ ns, goodName n = true) := by
  cases p with
  | nil => exact absurd hs (by simp [sourceShape])
  | cons x rest =>
    cases x with
    | rootDir =>
      rw [sourceShape, Bool.and_eq_true, decide_eq_true_eq] at hs
      obtain ⟨ns, hmap, hgood⟩ := goodNames_eq_map rest hs.2
      refine Or.inr (Or.inr ⟨ns, by rw [hmap], ?_, hgood⟩)
      intro hns
      rw [hns] at hmap
      exact hs.1 (by simpa using hmap)
    | parentDir =>
      rw [sourceShape] at hs
      obtain ⟨ns, hmap, hgood⟩ := goodNames_eq_map rest hs
      exact Or.inr (Or.inl ⟨ns, by rw [hmap], hgood⟩)
    | curDir =>
      rw [sourceShape] at hs
      exact absurd hs (by simp)
    | normal n =>
      rw [sourceShape, Bool.and_eq_true] at hs
      obtain ⟨ns, hmap, hgood⟩ := goodNames_eq_map rest hs.2
      refine Or.inl ⟨n :: ns, by rw [List.map_cons, hmap], by simp, ?_⟩
      intro m hm
      rcases List.mem_cons.mp hm with hm | hm
      · rw [hm]; exact hs.1
      · exact hgood m hm

theorem splitOnChar_of_not_mem (c : Char) :
    ∀ (l : List Char), c ∉ l → splitOnChar c l = [l] := by
  intro l
  induction l with
  | nil => intro _; rfl
  | cons x xs ih =>
    intro h
    rw [List.mem_cons, not_or] at h
    conv_lhs => rw [splitOnChar]
    rw [if_neg (fun hh => h.1 hh.symm), ih h.2]

theorem splitOnChar_append_cons (c : Char) :
    ∀ (l r : List Char), c ∉ l →
      splitOnChar c (l ++ c :: r) = l :: splitOnChar c r := by
  intro l
  induction l with
  | nil =>
    intro r _
    simp only [List.nil_append]
    conv_lhs => rw [splitOnChar]
    rw [if_pos rfl]
  | cons x xs ih =>
    intro r h
    rw [List.mem_cons, not_or] at h
    rw [List.cons_append]
    conv_lhs => rw [splitOnChar]
    rw [if_neg (fun hh => h.1 hh.symm), ih r h.2]

theorem splitOnChar_joinChar (c : Char) :
    ∀ (ls : List (List Char)), ls ≠ [] → (∀ l ∈ ls, c ∉ l) →
      splitOnChar c (joinChar c ls) = ls := by
  intro ls
  induction ls with
  | nil => intro h _; exact absurd rfl h
  | cons l ls' ih =>
    intro _ hmem
    cases ls' with
    | nil => exact splitOnChar_of_not_mem c l (hmem l (List.mem_cons_self _ _))
    | cons l2 ls'' =>
      show splitOnChar c (l ++ c :: joinChar c (l2 :: ls'')) = _
      rw [splitOnChar_append_cons c l _ (hmem l (List.mem_cons_self _ _)),
        ih (by simp) (fun x hx => hmem x (List.mem_cons_of_mem _ hx))]

theorem joinChar_cons_ne (c : Char) (p : List Char) (ls : List (List Char))
    (h : ls ≠ []) : joinChar c (p :: ls) = p ++ c :: joinChar c ls := by
  cases ls with
  | nil => exact absurd rfl h
  | cons l ls' => rfl

theorem getLast?_joinChar (c : Char) :
    ∀ (ls : List (List Char)) (q : List Char), q ≠ [] →
      (joinChar c (ls ++ [q])).getLast? = q.getLast? := by
  intro ls
  induction ls with
  | nil => intro q _; rfl
  | cons p ls' ih =>
    intro q hq
    rw [List.cons_append, joinChar_cons_ne c p _ (by simp)]
    obtain ⟨gq, hgq⟩ : ∃ gq, (joinChar c (ls' ++ [q])).getLast? = some gq := by
      rw [ih q hq, List.getLast?_eq_getLast q hq]
      exact ⟨_, rfl⟩
    have hcons : (c :: joinChar c (ls' ++ [q])).getLast? = some gq := by
      rw [show c :: joinChar c (ls' ++ [q]) = [c] ++ joinChar c (ls' ++ [q]) from rfl,
        List.getLast?_append, hgq]
      rfl
    rw [List.getLast?_append, hcons]
    rw [ih q hq] at hgq
    rw [hgq]
    rfl

theorem head?_joinChar (c : Char) (p : List Char) (ls : List (List Char))
    (h : p ≠ []) : (joinChar c (p :: ls)).head? = p.head? := by
  cases ls with
  | nil => rfl
  | cons l ls' =>
    rw [joinChar_cons_ne c p _ (by simp), List.head?_append]
    cases p with
    | nil => exact absurd rfl h
    | cons x xs => rfl

theorem goodName_spec (n : List Char) (h : goodName n = true) :
    n ≠ [] ∧ '/' ∉ n ∧ '\\' ∉ n ∧ '\n' ∉ n ∧ n ≠ ['.'] ∧ n ≠ ['.', '.'] ∧
    notWsEdge n.head? = true ∧ notWsEdge n.getLast? = true := by
  unfold goodName at h
  simp only [Bool.and_eq_true, decide_eq_true_eq] at h
  tauto

theorem goodName_last (q : List Char) (h : goodName q = true) :
    ∃ c, q.getLast? = some c ∧ notWsEdge (some c) = true ∧ isSep c = false := by
  have hspec := goodName_spec q h
  have hq : q ≠ [] := hspec.1
  refine ⟨q.getLast hq, List.getLast?_eq_getLast q hq, ?_, ?_⟩
  · rw [← List.getLast?_eq_getLast q hq]
    exact hspec.2.2.2.2.2.2.2
  · have hmem := List.getLast_mem hq
    unfold isSep
    simp only [Bool.or_eq_false_iff, decide_eq_false_iff_not]
    exact ⟨fun hh => hspec.2.1 (hh ▸ hmem), fun hh => hspec.2.2.1 (hh ▸ hmem)⟩

theorem goodName_head (q : List Char) (h : goodName q = true) :
    ∃ c, q.head? = some c ∧ notWsEdge (some c) = true ∧ ¬c = '/' := by
  have hspec := goodName_spec q h
  have hq : q ≠ [] := hspec.1
  refine ⟨q.head hq, List.head?_eq_head hq, ?_, ?_⟩
  · rw [← List.head?_eq_head hq]
    exact hspec.2.2.2.2.2.2.1
  · exact fun hh => hspec.2.1 (hh ▸ List.head_mem hq)

theorem map_renderComp_normal :
    ∀ ns : List (List Char),
      List.map renderComp (List.map Component.normal ns) = ns := by
  intro ns
  induction ns with
  | nil => rfl
  | cons n ns' ih => rw [List.map_cons, List.map_cons, ih]; rfl

theorem parseBody_of_good :
    ∀ (ns : List (List Char)), (∀ n ∈ ns, goodName n = true) →
      parseBody ns = List.map Component.normal ns := by
  intro ns
  induction ns with
  | nil => intro _; rfl
  | cons n ns' ih =>
    intro h
    have hn := goodName_spec n (h n (List.mem_cons_self _ _))
    have ih' := ih (fun m hm => h m (List.mem_cons_of_mem _ hm))
    unfold parseBody at ih' ⊢
    simp only [List.filterMap_cons]
    rw [if_neg hn.1, if_neg hn.2.2.2.2.1, if_neg hn.2.2.2.2.2.1, ih']
    rfl

theorem renderParts_normals (ns : List (List Char)) :
    renderParts (List.map Component.normal ns) = ns := by
  cases ns with
  | nil => rfl
  | cons n ns' =>
    show List.map renderComp (List.map Component.normal (n :: ns')) = n :: ns'
    rw [map_renderComp_normal]

theorem renderParts_parent (ns : List (List Char)) :
    renderParts (Component.parentDir :: List.map Component.normal ns) =
      ['.', '.'] :: ns := by
  show List.map renderComp (Component.parentDir :: List.map Component.normal ns) = _
  rw [List.map_cons, map_renderComp_normal]
  rfl

theorem renderParts_root (ns : List (List Char)) :
    renderParts (Component.rootDir :: List.map Component.normal ns) =
      [] :: ns := by
  show [] :: List.map renderComp (List.map Component.normal ns) = _
  rw [map_renderComp_normal]

theorem not_mem_joinChar (c c' : Char) (hne : c' ≠ c) :
    ∀ (ls : List (List Char)), (∀ l ∈ ls, c' ∉ l) → c' ∉ joinChar c ls := by
  intro ls
  induction ls with
  | nil => intro _; simp [joinChar]
  | cons l ls' ih =>
    intro hmem
    cases ls' with
    | nil => exact hmem l (List.mem_cons_self _ _)
    | cons l2 ls'' =>
      rw [joinChar_cons_ne c l _ (by simp)]
      intro hin
      rcases List.mem_append.mp hin with hin | hin
      · exact hmem l (List.mem_cons_self _ _) hin
      · rcases List.mem_cons.mp hin with hin | hin
        · exact hne hin
        · exact ih (fun x hx => hmem x (List.mem_cons_of_mem _ hx)) hin

theorem parse_render (p : Path) (hs : sourceShape p = true) :
    parsePath (render p) = p := by
  rcases sourceShape_cases p hs with ⟨ns, rfl, hne, hgood⟩ | ⟨ns, rfl, hgood⟩ |
    ⟨ns, rfl, hne, hgood⟩
  · cases ns with
    | nil => exact absurd rfl hne
    | cons n ns' =>
      have hgn := hgood n (List.mem_cons_self _ _)
      obtain ⟨c, hc, _, hcslash⟩ := goodName_head n hgn
      have hsplit : splitOnChar '/'
          (render (List.map Component.normal (n :: ns'))) = n :: ns' := by
        rw [render, renderParts_normals]
        exact splitOnChar_joinChar '/' (n :: ns') (by simp)
          (fun l hl => (goodName_spec l (hgood l hl)).2.1)
      have hhead : (render (List.map Component.normal (n :: ns'))).head? = some c := by
        rw [render, renderParts_normals,
          head?_joinChar '/' n ns' (goodName_spec n hgn).1, hc]
      unfold parsePath
      rw [if_neg (by rw [hhead]; exact fun hh => hcslash (by injection hh)),
        if_neg (by
          rw [hsplit]
          intro hh
          have : n = ['.'] := by injection hh
          exact (goodName_spec n hgn).2.2.2.2.1 this),
        hsplit, parseBody_of_good (n :: ns') hgood]
  · have hsplit : splitOnChar '/'
        (render (Component.parentDir :: List.map Component.normal ns)) =
        ['.', '.'] :: ns := by
      rw [render, renderParts_parent]
      refine splitOnChar_joinChar '/' (['.', '.'] :: ns) (by simp) ?_
      intro l hl
      rcases List.mem_cons.mp hl with hl | hl
      · rw [hl]; decide
      · exact (goodName_spec l (hgood l hl)).2.1
    have hhead : (render (Component.parentDir :: List.map Component.normal ns)).head? =
        some '.' := by
      rw [render, renderParts_parent, head?_joinChar '/' ['.', '.'] ns (by decide)]
      rfl
    unfold parsePath
    rw [if_neg (by rw [hhead]; intro hh; injection hh with hh2; exact absurd hh2 (by decide)),
      if_neg (by rw [hsplit]; intro hh; injection hh with hh2; exact absurd hh2 (by decide)),
      hsplit]
    unfold parseBody
    rw [List.filterMap_cons, if_neg (by decide), if_neg (by decide), if_pos rfl]
    have := parseBody_of_good ns hgood
    unfold parseBody at this
    rw [this]
  · cases ns with
    | nil => exact absurd rfl hne
    | cons n ns' =>
      have hrender : render (Component.rootDir :: List.map Component.normal (n :: ns')) =
          '/' :: joinChar '/' (n :: ns') := by
        rw [render, renderParts_root]
        exact joinChar_cons_ne '/' [] (n :: ns') (by simp)
      have hsplit : splitOnChar '/' ('/' :: joinChar '/' (n :: ns')) =
          [] :: (n :: ns') := by
        have h0 := splitOnChar_append_cons '/' [] (joinChar '/' (n :: ns')) (by simp)
        rw [List.nil_append] at h0
        rw [h0, splitOnChar_joinChar '/' (n :: ns') (by simp)
          (fun l hl => (goodName_spec l (hgood l hl)).2.1)]
      unfold parsePath
      rw [if_pos (by rw [hrender]; rfl), hrender, hsplit]
      unfold parseBody
      rw [List.filterMap_cons, if_pos rfl]
      have := parseBody_of_good (n :: ns') hgood
      unfold parseBody at this
      rw [this]

theorem normalize_sourceShape (p : Path) (hs : sourceShape p = true) :
    normalize p = p := by
  have hnp : ∀ (ns : List (List Char)) (x : Component),
      x ∈ List.map Component.normal ns → x ≠ Component.parentDir := by
    intro ns x hx
    obtain ⟨m, _, rfl⟩ := List.mem_map.mp hx
    simp
  rcases sourceShape_cases p hs with ⟨ns, rfl, hne, hgood⟩ | ⟨ns, rfl, hgood⟩ |
    ⟨ns, rfl, hne, hgood⟩
  · unfold normalize
    rw [normalize_append_no_parent _ (hnp ns) []]
    rfl
  · unfold normalize
    rw [List.foldl_cons,
      show normalizeStep [] Component.parentDir = [Component.parentDir] from rfl,
      normalize_append_no_parent _ (hnp ns) [Component.parentDir],
      List.singleton_append]
  · unfold normalize
    rw [List.foldl_cons,
      show normalizeStep [] Component.rootDir = [Component.rootDir] from rfl,
      normalize_append_no_parent _ (hnp ns) [Component.rootDir],
      List.singleton_append]

theorem render_edges (p : Path) (hs : sourceShape p = true) :
    render p ≠ [] ∧ '\n' ∉ render p ∧ notWsEdge (render p).head? = true ∧
    notWsEdge (render p).getLast? = true ∧ endsWithSep (render p) = false := by
  have step : ∀ (parts : List (List Char)) (c : Char),
      (joinChar '/' parts).getLast? = some c → notWsEdge (some c) = true →
      isSep c = false →
      (joinChar '/' parts).head? = (joinChar '/' parts).head? →
      joinChar '/' parts ≠ [] ∧
      notWsEdge (joinChar '/' parts).getLast? = true ∧
      endsWithSep (joinChar '/' parts) = false := by
    intro parts c hlast hnws hnsep _
    refine ⟨?_, ?_, ?_⟩
    · intro hh
      rw [hh] at hlast
      exact absurd hlast (by simp)
    · rw [hlast]; exact hnws
    · unfold endsWithSep
      rw [hlast]
      exact hnsep
  rcases sourceShape_cases p hs with ⟨ns, rfl, hne, hgood⟩ | ⟨ns, rfl, hgood⟩ |
    ⟨ns, rfl, hne, hgood⟩
  · rcases List.eq_nil_or_concat' ns with rfl | ⟨L, q, rfl⟩
    · exact absurd rfl hne
    · have hq : goodName q = true := hgood q (by simp)
      obtain ⟨c, hqlast, hnws, hnsep⟩ := goodName_last q hq
      have hlast : (render (List.map Component.normal (L ++ [q]))).getLast? = some c := by
        rw [render, renderParts_normals, getLast?_joinChar '/' L q (goodName_spec q hq).1,
          hqlast]
      obtain ⟨h1, h4, h5⟩ := step (L ++ [q]) c
        (by rw [render, renderParts_normals] at hlast; exact hlast) hnws hnsep rfl
      have hren : render (List.map Component.normal (L ++ [q])) =
          joinChar '/' (L ++ [q]) := by rw [render, renderParts_normals]
      rw [hren]
      refine ⟨h1, ?_, ?_, h4, h5⟩
      · exact not_mem_joinChar '/' '\n' (by decide) (L ++ [q])
          (fun l hl => (goodName_spec l (hgood l hl)).2.2.2.1)
      · cases L with
        | nil =>
          rw [show joinChar '/' ([] ++ [q]) = q from rfl]
          have := (goodName_spec q hq).2.2.2.2.2.2.1
          exact this
        | cons l0 L' =>
          have hl0 : goodName l0 = true := hgood l0 (by simp)
          obtain ⟨c0, hc0, hnws0, _⟩ := goodName_head l0 hl0
          rw [List.cons_append, head?_joinChar '/' l0 (L' ++ [q]) (goodName_spec l0 hl0).1,
            hc0]
          exact hnws0
  · have hparts : render (Component.parentDir :: List.map Component.normal ns) =
        joinChar '/' (['.', '.'] :: ns) := by rw [render, renderParts_parent]
    rw [hparts]
    have hmem : ∀ l ∈ ['.', '.'] :: ns, '\n' ∉ l := by
      intro l hl
      rcases List.mem_cons.mp hl with hl | hl
      · rw [hl]; decide
      · exact (goodName_spec l (hgood l hl)).2.2.2.1
    have hhead : (joinChar '/' (['.', '.'] :: ns)).head? = some '.' := by
      rw [head?_joinChar '/' ['.', '.'] ns (by decide)]
      rfl
    rcases List.eq_nil_or_concat' ns with rfl | ⟨L, q, rfl⟩
    · exact ⟨by decide, by decide, by decide, by decide, by decide⟩
    · have hq : goodName q = true := hgood q (by simp)
      obtain ⟨c, hqlast, hnws, hnsep⟩ := goodName_last q hq
      have hlast : (joinChar '/' (['.', '.'] :: (L ++ [q]))).getLast? = some c := by
        rw [show (['.', '.'] :: (L ++ [q])) = (['.', '.'] :: L) ++ [q] from rfl,
          getLast?_joinChar '/' (['.', '.'] :: L) q (goodName_spec q hq).1, hqlast]
      obtain ⟨h1, h4, h5⟩ := step (['.', '.'] :: (L ++ [q])) c hlast hnws hnsep rfl
      exact ⟨h1, not_mem_joinChar '/' '\n' (by decide) _ hmem, by rw [hhead]; rfl, h4, h5⟩
  · cases ns with
    | nil => exact absurd rfl hne
    | cons n ns' =>
      have hren : render (Component.rootDir :: List.map Component.normal (n :: ns')) =
          joinChar '/' ([] :: (n :: ns')) := by rw [render, renderParts_root]
      rw [hren]
      have hmem : ∀ l ∈ [] :: (n :: ns'), '\n' ∉ l := by
        intro l hl
        rcases List.mem_cons.mp hl with hl | hl
        · rw [hl]; simp
        · exact (goodName_spec l (hgood l hl)).2.2.2.1
      have hhead : (joinChar '/' ([] :: (n :: ns'))).head? = some '/' := by
        rw [joinChar_cons_ne '/' [] (n :: ns') (by simp)]
        rfl
      rcases List.eq_nil_or_concat' (n :: ns') with hcontra | ⟨L, q, hconcat⟩
      · exact absurd hcontra (by simp)
      · have hqmem : q ∈ n :: ns' := by rw [hconcat]; simp
        have hq : goodName q = true := hgood q hqmem
        obtain ⟨c, hqlast, hnws, hnsep⟩ := goodName_last q hq
        have hlast : (joinChar '/' ([] :: (n :: ns'))).getLast? = some c := by
          rw [hconcat, show ([] :: (L ++ [q]) : List (List Char)) = ([] :: L) ++ [q] from rfl,
            getLast?_joinChar '/' ([] :: L) q (goodName_spec q hq).1, hqlast]
        obtain ⟨h1, h4, h5⟩ := step ([] :: (n :: ns')) c hlast hnws hnsep rfl
        exact ⟨h1, not_mem_joinChar '/' '\n' (by decide) _ hmem, by rw [hhead]; rfl, h4, h5⟩

theorem trimWs_eq_self (l : List Char) (h1 : notWsEdge l.head? = true)
    (h2 : notWsEdge l.getLast? = true) : trimWs l = l := by
  unfold trimWs
  have hd : l.dropWhile Char.isWhitespace = l := by
    cases l with
    | nil => rfl
    | cons x xs =>
      rw [List.dropWhile_cons, if_neg (by
        unfold notWsEdge at h1
        simp only [List.head?_cons, Bool.not_eq_true'] at h1
        simp [h1])]
  rw [hd, List.rdropWhile_eq_self_iff]
  intro hl
  rw [List.getLast?_eq_getLast l hl] at h2
  unfold notWsEdge at h2
  simp only [Bool.not_eq_true'] at h2
  simp [h2]

theorem rdropSeps_eq_self (l : List Char) (h : endsWithSep l = false) :
    rdropSeps l = l := by
  unfold rdropSeps
  rw [List.rdropWhile_eq_self_iff]
  intro hl
  unfold endsWithSep at h
  rw [List.getLast?_eq_getLast l hl] at h
  simp only at h
  simp [h]

theorem rdropSeps_concat_sep (l : List Char) :
    rdropSeps (l ++ ['/']) = rdropSeps l :=
  List.rdropWhile_concat_pos isSep l '/' (by decide)

/-- One serialized line survives the blank filter and parses back to the
source's display text. -/
theorem serializeLine_parse (fsv : FsView) (src : Source)
    (hs : sourceShape src.path = true) (ht : src.text = render src.path) :
    ('\n') ∉ serializeLine fsv src ∧
    trimWs (serializeLine fsv src) ≠ [] ∧
    rdropSeps (trimWs (serializeLine fsv src)) = src.text := by
  obtain ⟨hnn, hnl, hhd, hlt, hsep⟩ := render_edges src.path hs
  rw [← ht] at hnn hnl hhd hlt hsep
  unfold serializeLine
  by_cases hcond : (fsv.isDir src.path && !fsv.isSymlink src.path &&
      !endsWithMainSep src.text) = true
  · rw [if_pos hcond]
    obtain ⟨c, hc⟩ : ∃ c, src.text.head? = some c := ⟨_, List.head?_eq_head hnn⟩
    have htrim : trimWs (src.text ++ ['/']) = src.text ++ ['/'] := by
      apply trimWs_eq_self
      · rw [List.head?_append, hc]
        rw [hc] at hhd
        exact hhd
      · rw [List.getLast?_append,
          show (['/'] : List Char).getLast? = some '/' from rfl, Option.or_some]
        decide
    refine ⟨?_, ?_, ?_⟩
    · intro hin
      rcases List.mem_append.mp hin with hin | hin
      · exact hnl hin
      · rw [List.mem_singleton] at hin
        exact absurd hin (by decide)
    · rw [htrim]
      simp
    · rw [htrim, rdropSeps_concat_sep, rdropSeps_eq_self _ hsep]
  · rw [if_neg hcond]
    exact ⟨hnl, by rw [trimWs_eq_self _ hhd hlt]; exact hnn,
      by rw [trimWs_eq_self _ hhd hlt, rdropSeps_eq_self _ hsep]⟩

theorem filterMap_serialized (fsv : FsView) :
    ∀ (sources : List Source),
      (∀ src ∈ sources, sourceShape src.path = true ∧ src.text = render src.path) →
      ((sources.map (serializeLine fsv)).filterMap fun line =>
        if trimWs line = [] then none else some (rdropSeps (trimWs line))) =
      sources.map (fun src => src.text) := by
  intro sources
  induction sources with
  | nil => intro _; rfl
  | cons s rest ih =>
    intro h
    obtain ⟨_, h2, h3⟩ := serializeLine_parse fsv s
      (h s (List.mem_cons_self _ _)).1 (h s (List.mem_cons_self _ _)).2
    rw [List.map_cons, List.filterMap_cons, if_neg (by simp [h2]), h3,
      ih (fun src hsrc => h src (List.mem_cons_of_mem _ hsrc)), List.map_cons]

/-- Parsing the serialized listing of well-formed sources returns exactly
the display texts, one line per source. -/
theorem parseLines_serialize (fsv : FsView) (sources : List Source)
    (h : ∀ src ∈ sources, sourceShape src.path = true ∧ src.text = render src.path) :
    parseLines (serialize fsv sources) = sources.map (fun src => src.text) := by
  cases sources with
  | nil => rfl
  | cons s rest =>
    have hjoin := splitOnChar_joinChar '\n' ((s :: rest).map (serializeLine fsv))
      (by simp)
      (fun l hl => by
        obtain ⟨src, hsrc, rfl⟩ := List.mem_map.mp hl
        exact (serializeLine_parse fsv src (h src hsrc).1 (h src hsrc).2).1)
    unfold parseLines serialize
    rw [hjoin, filterMap_serialized fsv (s :: rest) h]

/-- Feeding each source its own display text back is a complete pass of
no-ops: the operation list is returned unchanged. -/
theorem processLines_noop (fsv : FsView) :
    ∀ (sources : List Source) (ops : List Operation),
      (∀ src ∈ sources, sourceShape src.path = true ∧ src.text = render src.path) →
      processLines fsv ops (sources.zip (sources.map (fun src => src.text))) =
        AttemptOutcome.done ops := by
  intro sources
  induction sources with
  | nil => intro ops _; rfl
  | cons s rest ih =>
    intro ops h
    have hsp := h s (List.mem_cons_self _ _)
    have hskip : normalize (parsePath s.text) = s.path := by
      rw [hsp.2, parse_render s.path hsp.1, normalize_sourceShape s.path hsp.1]
    rw [List.map_cons, List.zip_cons_cons]
    unfold processLines
    rw [if_pos (Or.inl hskip)]
    exact ih ops (fun src hsrc => h src (List.mem_cons_of_mem _ hsrc))

/-- C7 (amended): for every (source, edited line) pair, if the line equals
the source's display text and the source is well-formed — its display text
renders its path, whose shape is one the collector produces with
well-behaved names (non-empty, no separator, backslash or newline, not
`.`/`..`, no whitespace at either end) — the pair is skipped; feeding the
serialized listing back unchanged therefore yields an empty batch.  A
source whose name has a whitespace edge is altered by the parsing trim and
yields a rename operation instead (see the counterexample). -/
theorem c7_theorem (fsv : FsView) (args : Args) (sources : List Source)
    (answers : List Bool)
    (h : ∀ src ∈ sources, sourceShape src.path = true ∧ src.text = render src.path) :
    operations_from fsv args sources [serialize fsv sources] answers =
      Except.ok [] := by
  unfold operations_from opsLoop
  rw [parseLines_serialize fsv sources h, if_neg (by simp),
    processLines_noop fsv sources [] h]

/-- Witness for C7: feeding the serialized listing of `good` back unchanged
produces the empty batch. -/
theorem c7_witness :
    operations_from fsvFalse argsDefault [srcGood]
      [serialize fsvFalse [srcGood]] [] = Except.ok [] :=
  c7_theorem fsvFalse argsDefault [srcGood] [] (by
    intro src hsrc
    rw [List.mem_singleton] at hsrc
    subst hsrc
    exact ⟨by decide, by decide⟩)

/-- C7 counterexample: the file ` a` (leading space) is collected with
display text ` a`; feeding the serialized listing back unchanged does not
yield an empty batch — the parsing trim turns the line into `a`, and a
rename operation ` a → a` is built and accepted. -/
theorem c7_counterexample :
    sources_from fsvWs argsDefault [(" a").toList] = Except.ok [srcWs] ∧
    operations_from fsvWs argsDefault [srcWs] [serialize fsvWs [srcWs]] [] =
      Except.ok [opWsRename] :=
  ⟨rfl, rfl⟩

/-- Witness for C9: the dry run of the C2 scenario performs zero moves and
issues no filesystem action. -/
theorem c9_witness :
    argsDry.dry_run = true ∧
    (try_main fsvRedo argsDry [("a").toList, ("b").toList]
        [("x\nq").toList] [false] = Except.ok (0, []) ∨
      ∃ e, try_main fsvRedo argsDry [("a").toList, ("b").toList]
          [("x\nq").toList] [false] = Except.error e ∧
        try_main fsvRedo { argsDry with dry_run := false } [("a").toList, ("b").toList]
            [("x\nq").toList] [false] = Except.error e) :=
  ⟨rfl, c9_theorem fsvRedo argsDry [("a").toList, ("b").toList]
    [("x\nq").toList] [false] rfl⟩

end Moove
